import Mathlib

/-!
Verification development for the mcp-audio-server repository.

Shallow embedding of three components:
* the admission governor of src/mcp_audio_server/concurrency.py
  (with_concurrency_control), modelled as a transition system whose atomic
  steps are the await-free blocks of the coroutine under the cooperative
  asyncio scheduler;
* the decode pipeline of src/mcp_audio_server/audio_io.py (get_audio_info,
  normalize_audio, decode_audio) and src/mcp_audio_server/security.py
  (validate_file_type), with external-process results (libmagic sniff,
  ffprobe, ffmpeg, soundfile read, base64) supplied as oracle inputs;
* the result cache of src/mcp_audio_server/cache.py (get_from_cache,
  clean_cache), with filesystem and Redis outcomes supplied as oracle
  inputs.
-/

namespace MCPAudio

/-! ### Admission governor (concurrency.py)

Configuration defaults from concurrency.py lines 19-21. -/

def REQUEST_TIMEOUT : Int := 30

def MAX_CONCURRENT : Int := 10

def MAX_QUEUE_SIZE : Int := 100

/-- Lifecycle status of one call to with_concurrency_control.
notArrived: the coroutine has not started.
waiting: enqueued at line 112, suspended in wait_for(future).
granted: its future was resolved by a completing job (line 153) but the
coroutine has not yet been rescheduled.
running: past the increment at line 124.
rejectedQueueFull: raised ServerBusy at line 108.
rejectedTimeout: raised ServerBusy at line 121 after wait_for timed out.
finished: returned or re-raised after the finally block at lines 146-153. -/
inductive JStatus where
  | notArrived
  | waiting
  | granted
  | running
  | rejectedQueueFull
  | rejectedTimeout
  | finished
deriving DecidableEq, Repr

/-- Global mutable state of concurrency.py: _active_requests (line 43) and
_request_queue (line 44), plus the status of each job coroutine.  Jobs are
identified by natural numbers; the queue holds job ids standing for the
futures appended at line 112. -/
structure GState where
  active : Int
  queue : List Nat
  jobs : Nat → JStatus

/-- Pointwise update of the job-status map. -/
def setJob (jobs : Nat → JStatus) (j : Nat) (st : JStatus) : Nat → JStatus :=
  fun k => if k = j then st else jobs k

/-- Initial state: no active requests, empty queue. -/
def initG : GState := { active := 0, queue := [], jobs := fun _ => .notArrived }

/-- One scheduler event: each constructor is one await-free atomic block of
with_concurrency_control, executed by the single-threaded event loop.
arrive: the block from entry to the first suspension (lines 104-112, or the
fast path through line 124 into the body await).
timeoutFire: wait_for(future) raised TimeoutError while the future was
still unresolved; the waiter removes itself and raises ServerBusy
(lines 117-121).
resume: a waiter whose future was resolved resumes from wait_for and runs
the increment at line 124 into the body await.
complete: the awaited body finished (return, exception, or timeout) and the
finally block at lines 146-153 runs: decrement, then pop and resolve the
queue head if any. -/
inductive GEvent where
  | arrive (j : Nat)
  | timeoutFire (j : Nat)
  | resume (j : Nat)
  | complete (j : Nat)

/-- Small-step semantics of with_concurrency_control. Returns none when the
event is not enabled in the given state. -/
def step (maxC maxQ : Int) (s : GState) : GEvent → Option GState
  | .arrive j =>
    if s.jobs j = .notArrived then
      if s.active ≥ maxC then
        if (s.queue.length : Int) ≥ maxQ then
          some { s with jobs := setJob s.jobs j .rejectedQueueFull }
        else
          some { s with jobs := setJob s.jobs j .waiting, queue := s.queue ++ [j] }
      else
        some { s with jobs := setJob s.jobs j .running, active := s.active + 1 }
    else none
  | .timeoutFire j =>
    if s.jobs j = .waiting then
      some { s with jobs := setJob s.jobs j .rejectedTimeout, queue := s.queue.erase j }
    else none
  | .resume j =>
    if s.jobs j = .granted then
      some { s with jobs := setJob s.jobs j .running, active := s.active + 1 }
    else none
  | .complete j =>
    if s.jobs j = .running then
      match s.queue with
      | [] => some { s with jobs := setJob s.jobs j .finished, active := s.active - 1 }
      | h :: t =>
        some { s with jobs := setJob (setJob s.jobs j .finished) h .granted,
                      active := s.active - 1, queue := t }
    else none

/-- Run a sequence of scheduler events. -/
def run (maxC maxQ : Int) (s : GState) : List GEvent → Option GState
  | [] => some s
  | e :: es =>
    match step maxC maxQ s e with
    | some s1 => run maxC maxQ s1 es
    | none => none

/-- Concrete state used by witnesses: job 0 running, job 1 queued. -/
def exCompleteSt : GState :=
  { active := 1, queue := [1],
    jobs := fun k => if k = 0 then .running else if k = 1 then .waiting else .notArrived }

/-- The state reached from exCompleteSt by completing job 0. -/
def exCompleteSt1 : GState :=
  { active := 0, queue := [],
    jobs := setJob (setJob exCompleteSt.jobs 0 .finished) 1 .granted }

/-- Concrete saturated state: capacity 1 in use, queue of size 1 full. -/
def exFullSt : GState :=
  { active := 1, queue := [5],
    jobs := fun k => if k = 5 then .waiting else if k = 3 then .running else .notArrived }

/-- C1: refuted on the code — the concurrently-admitted count is NOT bounded
by MAX_CONCURRENT.  Interleaving: jobs 0-9 admitted (active = 10), job 10
queues, job 0 completes (finally block decrements to 9 and resolves the
future of job 10), then a fresh arrival 11 runs before the woken waiter is
rescheduled: it sees active = 9 < 10 and admits itself (active = 10); the
woken job 10 then resumes at line 124 and increments without any re-check,
so active = 11 > MAX_CONCURRENT. -/
theorem active_requests_can_exceed_max_concurrent :
    (run MAX_CONCURRENT MAX_QUEUE_SIZE initG
        ((List.range 10).map GEvent.arrive ++
         [GEvent.arrive 10, GEvent.complete 0, GEvent.arrive 11, GEvent.resume 10])).map
      GState.active = some (MAX_CONCURRENT + 1) ∧
    MAX_CONCURRENT + 1 > MAX_CONCURRENT := by
  exact ⟨by decide, by decide⟩

/-- C2 counterexample: wait-queue service is not strictly FIFO.  Jobs 0-9
admitted, jobs 10 and 11 queued in that order, job 0 completes (waking job
10, queue now [11]), then job 12 arrives: it sees active = 9 < 10 and is
admitted to run immediately while the earlier-queued job 11 is still
waiting — job 12 jumped the queue. -/
theorem new_arrival_jumps_wait_queue :
    (run MAX_CONCURRENT MAX_QUEUE_SIZE initG
        ((List.range 10).map GEvent.arrive ++
         [GEvent.arrive 10, GEvent.arrive 11, GEvent.complete 0, GEvent.arrive 12])).map
      (fun s => (s.jobs 11, s.jobs 12)) =
      some (JStatus.waiting, JStatus.running) := by
  decide

/-- C2 amended: on every completion of an admitted job (the finally block
at lines 146-153, reached on success, exception and timeout alike) the
active count is decremented by exactly one, and if the wait queue is
non-empty exactly its FIFO head is woken, every other job status left
unchanged; strict FIFO service of the whole system, however, does not hold
(see the counterexample). -/
theorem completion_releases_exactly_one_permit
    (maxC maxQ : Int) (s s1 : GState) (j : Nat)
    (h : step maxC maxQ s (.complete j) = some s1) :
    s1.active = s.active - 1 ∧
    s1.queue = s.queue.tail ∧
    s1.jobs = (match s.queue with
      | [] => setJob s.jobs j .finished
      | h0 :: _ => setJob (setJob s.jobs j .finished) h0 .granted) := by
  simp only [step] at h
  split at h
  case isTrue hrun =>
    cases hq : s.queue with
    | nil =>
      rw [hq] at h
      cases h
      exact ⟨rfl, by simp [hq], by simp [hq]⟩
    | cons h0 t =>
      rw [hq] at h
      cases h
      exact ⟨rfl, by simp [hq], by simp [hq]⟩
  case isFalse hrun =>
    exact absurd h (by simp)

theorem completion_releases_exactly_one_permit_witness :
    exCompleteSt1.active = exCompleteSt.active - 1 ∧
    exCompleteSt1.queue = exCompleteSt.queue.tail ∧
    exCompleteSt1.jobs = (match exCompleteSt.queue with
      | [] => setJob exCompleteSt.jobs 0 .finished
      | h0 :: _ => setJob (setJob exCompleteSt.jobs 0 .finished) h0 .granted) :=
  completion_releases_exactly_one_permit 10 100 exCompleteSt exCompleteSt1 0 rfl

/-- C4: whenever the active count is at least MAX_CONCURRENT and the wait
queue already holds MAX_QUEUE_SIZE waiters, a new arrival is rejected
immediately (ServerBusy at line 108) without blocking and without touching
the active count or the queue; and the 15-admission scenario with
MAX_CONCURRENT = 10, MAX_QUEUE_SIZE = 3: the first 10 proceed, the next 3
queue, the last 2 are rejected immediately. -/
theorem reject_immediately_when_saturated :
    (∀ (maxC maxQ : Int) (s : GState) (j : Nat),
       s.jobs j = .notArrived → s.active ≥ maxC → (s.queue.length : Int) ≥ maxQ →
       step maxC maxQ s (.arrive j) =
         some { s with jobs := setJob s.jobs j .rejectedQueueFull }) ∧
    (run 10 3 initG ((List.range 15).map GEvent.arrive)).map
        (fun s => (s.active, s.queue, (List.range 15).map s.jobs)) =
      some (10, [10, 11, 12],
        List.replicate 10 JStatus.running ++
          (List.replicate 3 JStatus.waiting ++
            List.replicate 2 JStatus.rejectedQueueFull)) := by
  constructor
  · intro maxC maxQ s j h1 h2 h3
    simp [step, h1, h2, h3]
  · decide

theorem reject_immediately_when_saturated_witness :
    step 1 1 exFullSt (.arrive 7) =
      some { exFullSt with jobs := setJob exFullSt.jobs 7 .rejectedQueueFull } :=
  reject_immediately_when_saturated.1 1 1 exFullSt 7 rfl (by decide) (by decide)

/-- Queue sanity invariant of the governor state: the wait queue holds no
duplicate job ids, and every queued job is in the waiting status (its
future is pending). -/
def Inv (s : GState) : Prop :=
  s.queue.Nodup ∧ ∀ j ∈ s.queue, s.jobs j = .waiting

lemma inv_initG : Inv initG := by
  simp [Inv, initG]

lemma inv_step (maxC maxQ : Int) {s s1 : GState} {e : GEvent}
    (hI : Inv s) (h : step maxC maxQ s e = some s1) : Inv s1 := by
  obtain ⟨hnd, hw⟩ := hI
  cases e with
  | arrive j =>
    simp only [step] at h
    split at h
    case isFalse => exact absurd h (by simp)
    case isTrue hna =>
      have hjq : j ∉ s.queue := fun hj => by
        have hthis := hw j hj
        rw [hna] at hthis
        exact JStatus.noConfusion hthis
      split at h
      case isTrue hcap =>
        split at h
        case isTrue hfull =>
          cases h
          refine ⟨hnd, fun k hk => ?_⟩
          have hkj : k ≠ j := fun he => hjq (he ▸ hk)
          simpa [setJob, hkj] using hw k hk
        case isFalse hfull =>
          cases h
          refine ⟨?_, fun k hk => ?_⟩
          · simp [List.nodup_append, hnd, hjq]
          · rcases List.mem_append.1 hk with hk | hk
            · have hkj : k ≠ j := fun he => hjq (he ▸ hk)
              simpa [setJob, hkj] using hw k hk
            · have hkj : k = j := by simpa using hk
              simp [setJob, hkj]
      case isFalse hcap =>
        cases h
        refine ⟨hnd, fun k hk => ?_⟩
        have hkj : k ≠ j := fun he => hjq (he ▸ hk)
        simpa [setJob, hkj] using hw k hk
  | timeoutFire j =>
    simp only [step] at h
    split at h
    case isFalse => exact absurd h (by simp)
    case isTrue hwj =>
      cases h
      refine ⟨hnd.erase j, fun k hk => ?_⟩
      rcases (hnd.mem_erase_iff).1 hk with ⟨hkj, hkq⟩
      simpa [setJob, hkj] using hw k hkq
  | resume j =>
    simp only [step] at h
    split at h
    case isFalse => exact absurd h (by simp)
    case isTrue hgj =>
      cases h
      refine ⟨hnd, fun k hk => ?_⟩
      have hkj : k ≠ j := fun he => by
        have hthis := hw k hk
        rw [he, hgj] at hthis
        exact JStatus.noConfusion hthis
      simpa [setJob, hkj] using hw k hk
  | complete j =>
    simp only [step] at h
    split at h
    case isFalse => exact absurd h (by simp)
    case isTrue hrj =>
      cases hq : s.queue with
      | nil =>
        rw [hq] at h
        cases h
        exact ⟨List.nodup_nil, fun k hk => absurd hk (by simp)⟩
      | cons h0 t =>
        rw [hq] at h
        cases h
        have hnd2 : (h0 :: t).Nodup := hq ▸ hnd
        refine ⟨hnd2.of_cons, fun k hk => ?_⟩
        have hkq : k ∈ s.queue := by
          rw [hq]
          exact List.mem_cons_of_mem _ hk
        have hkj : k ≠ j := fun he => by
          have hthis := hw k hkq
          rw [he, hrj] at hthis
          exact JStatus.noConfusion hthis
        have hkh0 : k ≠ h0 := fun he => (List.nodup_cons.1 hnd2).1 (he ▸ hk)
        simpa [setJob, hkh0, hkj] using hw k hkq

lemma rejectedTimeout_stable (maxC maxQ : Int) {s s1 : GState} {e : GEvent} {j : Nat}
    (hI : Inv s) (h : step maxC maxQ s e = some s1)
    (hr : s.jobs j = .rejectedTimeout) : s1.jobs j = .rejectedTimeout := by
  obtain ⟨hnd, hw⟩ := hI
  cases e with
  | arrive k =>
    simp only [step] at h
    split at h
    case isFalse => exact absurd h (by simp)
    case isTrue hna =>
      have hkj : j ≠ k := fun he => by
        rw [← he, hr] at hna
        exact JStatus.noConfusion hna
      split at h
      case isTrue =>
        split at h
        case isTrue => cases h; simpa [setJob, hkj] using hr
        case isFalse => cases h; simpa [setJob, hkj] using hr
      case isFalse => cases h; simpa [setJob, hkj] using hr
  | timeoutFire k =>
    simp only [step] at h
    split at h
    case isFalse => exact absurd h (by simp)
    case isTrue hwk =>
      have hkj : j ≠ k := fun he => by
        rw [← he, hr] at hwk
        exact JStatus.noConfusion hwk
      cases h
      simpa [setJob, hkj] using hr
  | resume k =>
    simp only [step] at h
    split at h
    case isFalse => exact absurd h (by simp)
    case isTrue hgk =>
      have hkj : j ≠ k := fun he => by
        rw [← he, hr] at hgk
        exact JStatus.noConfusion hgk
      cases h
      simpa [setJob, hkj] using hr
  | complete k =>
    simp only [step] at h
    split at h
    case isFalse => exact absurd h (by simp)
    case isTrue hrk =>
      have hkj : j ≠ k := fun he => by
        rw [← he, hr] at hrk
        exact JStatus.noConfusion hrk
      cases hq : s.queue with
      | nil =>
        rw [hq] at h
        cases h
        simpa [setJob, hkj] using hr
      | cons h0 t =>
        rw [hq] at h
        have hh0 : s.jobs h0 = .waiting := hw h0 (by rw [hq]; exact List.mem_cons_self _ _)
        have hjh0 : j ≠ h0 := fun he => by
          rw [he, hh0] at hr
          exact JStatus.noConfusion hr
        cases h
        simpa [setJob, hjh0, hkj] using hr

lemma inv_run (maxC maxQ : Int) : ∀ {tr : List GEvent} {s s1 : GState},
    run maxC maxQ s tr = some s1 → Inv s → Inv s1 := by
  intro tr
  induction tr with
  | nil =>
    intro s s1 h hI
    simp only [run] at h
    cases h
    exact hI
  | cons e es ih =>
    intro s s1 h hI
    simp only [run] at h
    cases he : step maxC maxQ s e with
    | none => rw [he] at h; exact absurd h (by simp)
    | some s2 =>
      rw [he] at h
      exact ih h (inv_step maxC maxQ hI he)

lemma rejectedTimeout_stable_run (maxC maxQ : Int) :
    ∀ {tr : List GEvent} {s s1 : GState} {j : Nat},
    run maxC maxQ s tr = some s1 → Inv s → s.jobs j = .rejectedTimeout →
    s1.jobs j = .rejectedTimeout := by
  intro tr
  induction tr with
  | nil =>
    intro s s1 j h hI hr
    simp only [run] at h
    cases h
    exact hr
  | cons e es ih =>
    intro s s1 j h hI hr
    simp only [run] at h
    cases he : step maxC maxQ s e with
    | none => rw [he] at h; exact absurd h (by simp)
    | some s2 =>
      rw [he] at h
      exact ih h (inv_step maxC maxQ hI he) (rejectedTimeout_stable maxC maxQ hI he hr)

/-- The state reached from exFullSt when the queued job 5 times out. -/
def exTimeoutSt1 : GState :=
  { active := 1, queue := [], jobs := setJob exFullSt.jobs 5 .rejectedTimeout }

/-- The state reached by: job 0 queues (capacity 0), then times out. -/
def exTimeoutTraceSt : GState :=
  { active := 0, queue := [],
    jobs := setJob (setJob initG.jobs 0 .waiting) 0 .rejectedTimeout }

/-- The state reached from exTimeoutTraceSt after a further arrival queues. -/
def exTimeoutTraceSt2 : GState :=
  { active := 0, queue := [1], jobs := setJob exTimeoutTraceSt.jobs 1 .waiting }

/-- C3: a queued waiter whose wait_for times out takes exactly one
terminal outcome.  First part: the timeout block (lines 117-121) is atomic
in the cooperative scheduler: it leaves the active count unchanged
(consumes no permit), marks exactly that job rejected, removes exactly
that waiter from the queue and touches no other job.  Second part: along
any continuation of any execution from the initial state, a timed-out
waiter stays rejected forever — it is never also granted or run later, so
no permit is consumed or leaked on its behalf. -/
theorem queued_timeout_single_outcome :
    (∀ (maxC maxQ : Int) (s s1 : GState) (j : Nat),
       step maxC maxQ s (.timeoutFire j) = some s1 →
       s1.active = s.active ∧ s1.jobs j = .rejectedTimeout ∧
       s1.queue = s.queue.erase j ∧ ∀ k, k ≠ j → s1.jobs k = s.jobs k) ∧
    (∀ (maxC maxQ : Int) (tr1 tr2 : List GEvent) (s s1 : GState) (j : Nat),
       run maxC maxQ initG tr1 = some s → s.jobs j = .rejectedTimeout →
       run maxC maxQ s tr2 = some s1 → s1.jobs j = .rejectedTimeout) := by
  constructor
  · intro maxC maxQ s s1 j h
    simp only [step] at h
    split at h
    case isFalse => exact absurd h (by simp)
    case isTrue hwj =>
      cases h
      refine ⟨rfl, by simp [setJob], rfl, fun k hk => by simp [setJob, hk]⟩
  · intro maxC maxQ tr1 tr2 s s1 j h1 hr h2
    exact rejectedTimeout_stable_run maxC maxQ h2 (inv_run maxC maxQ h1 inv_initG) hr

theorem queued_timeout_single_outcome_witness :
    (exTimeoutSt1.active = exFullSt.active ∧
     exTimeoutSt1.jobs 5 = JStatus.rejectedTimeout ∧
     exTimeoutSt1.queue = exFullSt.queue.erase 5) ∧
    exTimeoutTraceSt2.jobs 0 = JStatus.rejectedTimeout :=
  ⟨⟨(queued_timeout_single_outcome.1 1 1 exFullSt exTimeoutSt1 5 rfl).1,
    (queued_timeout_single_outcome.1 1 1 exFullSt exTimeoutSt1 5 rfl).2.1,
    (queued_timeout_single_outcome.1 1 1 exFullSt exTimeoutSt1 5 rfl).2.2.1⟩,
   queued_timeout_single_outcome.2 0 1 [.arrive 0, .timeoutFire 0] [.arrive 1]
     exTimeoutTraceSt exTimeoutTraceSt2 0 rfl rfl rfl⟩

/-! ### Secure decode pipeline (audio_io.py, security.py)

External-process results (libmagic sniff, ffprobe, ffmpeg transcode exit,
soundfile read, base64 decode) are supplied as oracle inputs; the control
flow of get_audio_info, normalize_audio and decode_audio is translated
directly from the source. -/

/-- Error code constants of class AudioDecodeError (audio_io.py 30-37). -/
def DECODE_FAILED : String := "DECODING_ERROR"

def TIMEOUT_CODE : String := "TIMEOUT_ERROR"

def FILE_TOO_LARGE : String := "FILE_TOO_LARGE"

def DURATION_TOO_LONG : String := "DURATION_TOO_LONG"

def UNSUPPORTED_FORMAT : String := "UNSUPPORTED_FORMAT"

def FFMPEG_NOT_FOUND : String := "FFMPEG_NOT_FOUND"

def INVALID_FILE_TYPE : String := "INVALID_FILE_TYPE"

/-- Configuration constants (audio_io.py 23-24). -/
def MAX_AUDIO_SIZE_MB : ℚ := 100

def MAX_AUDIO_DURATION_SEC : ℚ := 300

/-- AudioDecodingException, reduced to the machine-readable error_code
field that the claims are about (audio_io.py 40-47). -/
structure AudioDecodingException where
  error_code : String
deriving DecidableEq, Repr

/-- ALLOWED_AUDIO_MIME_TYPES (security.py 16-22). -/
def ALLOWED_AUDIO_MIME_TYPES : List String :=
  ["audio/wav", "audio/x-wav",
   "audio/mpeg", "audio/mp3",
   "audio/ogg", "audio/vorbis",
   "audio/flac",
   "audio/aac"]

/-- validate_file_type (security.py 81-110).  The argument is the result
of the libmagic content sniff of the file BYTES: some mime on success,
none when the sniff itself raised (the except branch returning
(False, "unknown")).  The declared extension plays no part. -/
def validate_file_type (sniffed : Option String) : Bool × String :=
  match sniffed with
  | none => (false, "unknown")
  | some m => (ALLOWED_AUDIO_MIME_TYPES.contains m, m)

/-- Metadata reported by the read-only ffprobe call (audio_io.py 93-108):
duration and size from the container format section. -/
structure ProbeData where
  duration : ℚ
  size_bytes : ℕ
  codec : String
deriving DecidableEq, Repr

/-- The dict returned by get_audio_info (audio_io.py 110-115). -/
structure AudioInfo where
  duration : ℚ
  size_bytes : ℕ
  size_mb : ℚ
  codec : String
deriving DecidableEq, Repr

/-- get_audio_info (audio_io.py 82-122): first validates the sniffed file
type, then runs the read-only ffprobe inspection (probe = none models a
SubprocessError or JSONDecodeError from it). -/
def get_audio_info (sniffed : Option String) (probe : Option ProbeData) :
    Except AudioDecodingException AudioInfo :=
  let v := validate_file_type sniffed
  if v.1 = false then
    .error ⟨INVALID_FILE_TYPE⟩
  else
    match probe with
    | none => .error ⟨DECODE_FAILED⟩
    | some p =>
      .ok { duration := p.duration, size_bytes := p.size_bytes,
            size_mb := (p.size_bytes : ℚ) / (1024 * 1024), codec := p.codec }

/-- Result of loading the normalized output with soundfile (audio_io.py
183-187), reduced to the sample rate. -/
structure NormResult where
  sample_rate : ℕ
deriving DecidableEq, Repr

/-- Oracle inputs characterizing one input file to normalize_audio. -/
structure NormInput where
  sniffed : Option String
  probe : Option ProbeData
  transcode_ok : Bool
  sf_read : Option NormResult

/-- normalize_audio (audio_io.py 125-204).  Returns the Except outcome
paired with a flag recording whether the ffmpeg transcode command (lines
156-172) was invoked.  Gate order as in the source: probe via
get_audio_info, then the size check, then the duration check, and only
then the transcode; a transcode nonzero exit or a soundfile read failure
is DECODE_FAILED (the latter through the generic except branch at lines
191-197). -/
def normalize_audio (inp : NormInput) :
    Except AudioDecodingException NormResult × Bool :=
  match get_audio_info inp.sniffed inp.probe with
  | .error e => (.error e, false)
  | .ok info =>
    if info.size_mb > MAX_AUDIO_SIZE_MB then
      (.error ⟨FILE_TOO_LARGE⟩, false)
    else if info.duration > MAX_AUDIO_DURATION_SEC then
      (.error ⟨DURATION_TOO_LONG⟩, false)
    else if inp.transcode_ok = false then
      (.error ⟨DECODE_FAILED⟩, true)
    else
      match inp.sf_read with
      | none => (.error ⟨DECODE_FAILED⟩, true)
      | some r => (.ok r, true)

/-- Oracle inputs characterizing one call to decode_audio. -/
structure DecodeInput where
  ffmpeg_available : Bool
  base64_ok : Bool
  sniffed : Option String
  probe : Option ProbeData
  transcode_ok : Bool
  sf_read : Option NormResult

/-- decode_audio (audio_io.py 207-256): checks ffmpeg availability, then
transport-decodes the base64 payload (base64_ok = false models a
binascii.Error; the handler at lines 239-245 raises with code
AudioDecodeError.DECODE_FAILED), writes the bytes to a scratch file whose
suffix is the caller-declared format_type, and calls normalize_audio.
The declared format_type influences nothing but the scratch file name. -/
def decode_audio (inp : DecodeInput) (format_type : String) :
    Except AudioDecodingException NormResult × Bool :=
  if inp.ffmpeg_available = false then
    (.error ⟨FFMPEG_NOT_FOUND⟩, false)
  else if inp.base64_ok = false then
    (.error ⟨DECODE_FAILED⟩, false)
  else
    normalize_audio
      { sniffed := inp.sniffed, probe := inp.probe,
        transcode_ok := inp.transcode_ok, sf_read := inp.sf_read }

/-- A 600MB wav input as reported by the probe. -/
def exProbeBig : ProbeData :=
  { duration := 2, size_bytes := 600 * 1024 * 1024, codec := "pcm_s16le" }

def exNormBig : NormInput :=
  { sniffed := some "audio/wav", probe := some exProbeBig,
    transcode_ok := true, sf_read := some ⟨44100⟩ }

def exInfoBig : AudioInfo :=
  { duration := 2, size_bytes := 600 * 1024 * 1024,
    size_mb := ((600 * 1024 * 1024 : ℕ) : ℚ) / (1024 * 1024), codec := "pcm_s16le" }

/-- A 400-second input as reported by the probe. -/
def exProbeLong : ProbeData :=
  { duration := 400, size_bytes := 1024, codec := "pcm_s16le" }

def exNormLong : NormInput :=
  { sniffed := some "audio/wav", probe := some exProbeLong,
    transcode_ok := true, sf_read := some ⟨44100⟩ }

def exInfoLong : AudioInfo :=
  { duration := 400, size_bytes := 1024,
    size_mb := ((1024 : ℕ) : ℚ) / (1024 * 1024), codec := "pcm_s16le" }

/-- C5: when the probe succeeds and reports a size over MAX_AUDIO_SIZE_MB,
normalize_audio fails with FILE_TOO_LARGE and the ffmpeg transcode is
never invoked; when the size is within bounds but the reported duration
exceeds MAX_AUDIO_DURATION_SEC, it fails with DURATION_TOO_LONG, again
without invoking the transcode.  The probe and both limit checks precede
the transcode on every path (the invoked flag is false on all of them). -/
theorem limit_checks_precede_transcode
    (inp : NormInput) (info : AudioInfo)
    (h : get_audio_info inp.sniffed inp.probe = .ok info) :
    (info.size_mb > MAX_AUDIO_SIZE_MB →
       normalize_audio inp = (.error ⟨FILE_TOO_LARGE⟩, false)) ∧
    (¬ info.size_mb > MAX_AUDIO_SIZE_MB → info.duration > MAX_AUDIO_DURATION_SEC →
       normalize_audio inp = (.error ⟨DURATION_TOO_LONG⟩, false)) := by
  constructor
  · intro hs
    simp [normalize_audio, h, hs]
  · intro hs hd
    simp [normalize_audio, h, hs, hd]

lemma exInfoBig_oversize : exInfoBig.size_mb > MAX_AUDIO_SIZE_MB := by
  norm_num [exInfoBig, MAX_AUDIO_SIZE_MB]

lemma exInfoLong_size_ok : ¬ exInfoLong.size_mb > MAX_AUDIO_SIZE_MB := by
  norm_num [exInfoLong, MAX_AUDIO_SIZE_MB]

lemma exInfoLong_overlong : exInfoLong.duration > MAX_AUDIO_DURATION_SEC := by
  norm_num [exInfoLong, MAX_AUDIO_DURATION_SEC]

theorem limit_checks_precede_transcode_witness :
    normalize_audio exNormBig = (.error ⟨FILE_TOO_LARGE⟩, false) ∧
    normalize_audio exNormLong = (.error ⟨DURATION_TOO_LONG⟩, false) :=
  ⟨(limit_checks_precede_transcode exNormBig exInfoBig rfl).1 exInfoBig_oversize,
   (limit_checks_precede_transcode exNormLong exInfoLong rfl).2
     exInfoLong_size_ok exInfoLong_overlong⟩

/-- A plain-text payload declared as wav: the byte sniff reports
text/plain. -/
def exTextInput : DecodeInput :=
  { ffmpeg_available := true, base64_ok := true, sniffed := some "text/plain",
    probe := none, transcode_ok := true, sf_read := none }

/-- C6: whenever the content type sniffed from the file bytes is not in
ALLOWED_AUDIO_MIME_TYPES, decode_audio fails with INVALID_FILE_TYPE and
never reaches the transcode; and the result of decode_audio is entirely
independent of the caller-declared format_type. -/
theorem sniffed_mime_gates_decoding
    (inp : DecodeInput) (fmt fmt2 m : String)
    (hav : inp.ffmpeg_available = true) (hb : inp.base64_ok = true) :
    (inp.sniffed = some m → m ∉ ALLOWED_AUDIO_MIME_TYPES →
       decode_audio inp fmt = (.error ⟨INVALID_FILE_TYPE⟩, false)) ∧
    decode_audio inp fmt = decode_audio inp fmt2 := by
  constructor
  · intro hm hnotin
    simp [decode_audio, hav, hb, normalize_audio, get_audio_info,
          validate_file_type, hm, hnotin]
  · rfl

theorem sniffed_mime_gates_decoding_witness :
    decode_audio exTextInput "wav" = (.error ⟨INVALID_FILE_TYPE⟩, false) ∧
    decode_audio exTextInput "wav" = decode_audio exTextInput "mp3" :=
  ⟨(sniffed_mime_gates_decoding exTextInput "wav" "mp3" "text/plain" rfl rfl).1
     rfl (by decide),
   (sniffed_mime_gates_decoding exTextInput "wav" "mp3" "text/plain" rfl rfl).2⟩

/-- A payload whose base64 transport decode fails. -/
def exBadB64 : DecodeInput :=
  { ffmpeg_available := true, base64_ok := false, sniffed := some "audio/wav",
    probe := some ⟨2, 1024, "pcm_s16le"⟩, transcode_ok := true,
    sf_read := some ⟨44100⟩ }

/-- A well-formed payload whose ffmpeg transcode exits nonzero. -/
def exBadTranscode : DecodeInput :=
  { ffmpeg_available := true, base64_ok := true, sniffed := some "audio/wav",
    probe := some ⟨2, 1024, "pcm_s16le"⟩, transcode_ok := false,
    sf_read := none }

/-- C7 counterexample: the claim that malformed base64 gets a DISTINCT
failure code is false on the code.  audio_io.py 239-245 raises
AudioDecodingException with AudioDecodeError.DECODE_FAILED (the string
DECODING_ERROR); class AudioDecodeError has no InvalidBase64 member at
all, and a decoder (transcode) failure carries the very same code, so the
transport-decode failure is not distinguished by code from the generic
decoder failure. -/
theorem invalid_base64_not_distinct_code :
    decode_audio exBadB64 "wav" = (.error ⟨DECODE_FAILED⟩, false) ∧
    DECODE_FAILED = "DECODING_ERROR" ∧
    DECODE_FAILED ≠ "INVALID_BASE64" ∧
    decode_audio exBadTranscode "wav" = (.error ⟨DECODE_FAILED⟩, true) := by
  refine ⟨rfl, rfl, by decide, ?_⟩
  norm_num [decode_audio, exBadTranscode, normalize_audio, get_audio_info,
            validate_file_type, ALLOWED_AUDIO_MIME_TYPES,
            MAX_AUDIO_SIZE_MB, MAX_AUDIO_DURATION_SEC]

/-- C7 amended: for every input whose base64 transport decode fails (with
ffmpeg present, since that check comes first), decode_audio fails before
any file is processed, with the generic DECODE_FAILED code
(DECODING_ERROR) — the same code used for decoder failures — rather than
a distinct InvalidBase64 code. -/
theorem invalid_base64_maps_to_decode_failed
    (inp : DecodeInput) (fmt : String)
    (hav : inp.ffmpeg_available = true) (hb : inp.base64_ok = false) :
    decode_audio inp fmt = (.error ⟨DECODE_FAILED⟩, false) := by
  simp [decode_audio, hav, hb]

theorem invalid_base64_maps_to_decode_failed_witness :
    decode_audio exBadB64 "mp3" = (.error ⟨DECODE_FAILED⟩, false) :=
  invalid_base64_maps_to_decode_failed exBadB64 "mp3" rfl rfl

/-! ### Content cache (cache.py)

Filesystem and Redis outcomes are supplied as oracle inputs; the control
flow of get_from_cache and clean_cache is translated from the source. -/

/-- DEFAULT_CACHE_TTL (cache.py 17), in seconds. -/
def DEFAULT_CACHE_TTL : ℚ := 24 * 60 * 60

/-- MAX_CACHE_SIZE (cache.py 18), in bytes. -/
def MAX_CACHE_SIZE : ℕ := 1024 * 1024 * 1024

/-- Outcome of the optional Redis tier consulted first (cache.py 86-92):
unavailable when REDIS_AVAILABLE is false; hit v when get returned truthy
data that parsed as JSON; miss when it returned no data (falls through to
the filesystem tier); failed when the client or json.loads raised (the
warning is logged and the lookup falls through). -/
inductive RedisOutcome where
  | unavailable
  | hit (v : String)
  | miss
  | failed
deriving DecidableEq, Repr

/-- Outcome of reading and parsing one existing on-disk entry inside the
try block of get_from_cache (cache.py 100-114): ok v for a successful
JSON load, ioError for an OSError from the filesystem, badJson for a
json.load parse failure. -/
inductive ReadOutcome where
  | ok (v : String)
  | ioError
  | badJson
deriving DecidableEq, Repr

/-- One on-disk cache entry: its stat mtime and what reading it yields. -/
structure FsFile where
  mtime : ℚ
  content : ReadOutcome
deriving DecidableEq, Repr

/-- The try block of get_from_cache (cache.py 100-114) on an existing
file: compare the entry age (current_time - st_mtime) with the TTL;
expired entries are unlinked and yield none; otherwise the JSON is
loaded.  A filesystem or parse failure escapes as an Except.error, caught
by the caller.  Result pairs the returned value with the state of the
on-disk entry afterwards. -/
def get_inner (f : FsFile) (now ttl : ℚ) :
    Except String (Option String × Option FsFile) :=
  if now - f.mtime > ttl then
    .ok (none, none)
  else
    match f.content with
    | .ok v => .ok (some v, some f)
    | .ioError => .error "filesystem error"
    | .badJson => .error "invalid JSON"

/-- get_from_cache (cache.py 75-117): Redis tier first (a hit returns at
once, anything else falls through), then the existence check at line 97,
then the guarded try block; any exception there is logged and mapped to
none (lines 115-117), leaving the entry as it was. -/
def get_from_cache (redis : RedisOutcome) (fs : Option FsFile) (now ttl : ℚ) :
    Option String × Option FsFile :=
  match redis with
  | .hit v => (some v, fs)
  | _ =>
    match fs with
    | none => (none, none)
    | some f =>
      match get_inner f now ttl with
      | .ok r => r
      | .error _ => (none, some f)

/-- One (path, mtime, size) tuple collected by the glob in clean_cache
(cache.py 169-173); pathId stands for the path. -/
structure CacheFile where
  pathId : ℕ
  mtime : ℚ
  size : ℕ
deriving DecidableEq, Repr

/-- Cumulative size, as summed at cache.py 189. -/
def totalSize (l : List CacheFile) : ℕ := (l.map CacheFile.size).sum

/-- Ordered insert by modification time (the sort at cache.py 187). -/
def insertMtime (e : CacheFile) : List CacheFile → List CacheFile
  | [] => [e]
  | f :: fs => if e.mtime ≤ f.mtime then e :: f :: fs else f :: insertMtime e fs

/-- files.sort(key=mtime) at cache.py 187. -/
def sortByMtime : List CacheFile → List CacheFile
  | [] => []
  | f :: fs => insertMtime f (sortByMtime fs)

/-- The while loop at cache.py 190-197: while the cumulative size exceeds
the cap and files remain, pop and delete the oldest file and subtract its
size (so the running total is always the total of the remaining list). -/
def evictOldest (cap : ℕ) : List CacheFile → List CacheFile
  | [] => []
  | f :: fs => if totalSize (f :: fs) > cap then evictOldest cap fs else f :: fs

/-- clean_cache (cache.py 158-199): delete entries older than the TTL
(lines 176-183), keep the files that still exist (line 186), sort by
modification time (line 187), then delete oldest-first while the
cumulative size exceeds the cap (lines 189-197).  Returns the surviving
entries. -/
def clean_cache (files : List CacheFile) (now ttl : ℚ) (cap : ℕ) :
    List CacheFile :=
  evictOldest cap (sortByMtime (files.filter (fun f => decide (now - f.mtime ≤ ttl))))

/-- A fresh, well-formed on-disk entry written at time 0. -/
def exFreshFile : FsFile := { mtime := 0, content := .ok "result" }

lemma exFreshFile_wf :
    ∀ f, some exFreshFile = some f → ∃ w, f.content = ReadOutcome.ok w := by
  intro f hf
  cases hf
  exact ⟨"result", rfl⟩

lemma exFreshFile_stale : (90000 : ℚ) - exFreshFile.mtime > DEFAULT_CACHE_TTL := by
  norm_num [exFreshFile, DEFAULT_CACHE_TTL]

/-- C8: over well-formed entries with the Redis tier absent (the default
configuration, REDIS_URL unset), get returns the stored value iff the
entry is present and its age is at most the TTL; and on a present entry
older than the TTL the lookup returns none and unlinks the on-disk file
as a side effect. -/
theorem cache_get_ttl_semantics
    (e : Option FsFile) (v : String) (now ttl : ℚ)
    (hwf : ∀ f, e = some f → ∃ w, f.content = ReadOutcome.ok w) :
    ((get_from_cache .unavailable e now ttl).1 = some v ↔
       ∃ f, e = some f ∧ f.content = ReadOutcome.ok v ∧ now - f.mtime ≤ ttl) ∧
    (∀ f, e = some f → now - f.mtime > ttl →
       get_from_cache .unavailable e now ttl = (none, none)) := by
  cases e with
  | none =>
    refine ⟨?_, fun f hf => absurd hf (by simp)⟩
    simp [get_from_cache]
  | some f =>
    obtain ⟨w, hw⟩ := hwf f rfl
    by_cases hex : now - f.mtime > ttl
    · have hval : get_from_cache .unavailable (some f) now ttl = (none, none) := by
        simp [get_from_cache, get_inner, hex]
      refine ⟨?_, fun f2 hf2 _ => by cases hf2; exact hval⟩
      constructor
      · intro h
        rw [hval] at h
        exact absurd h (by simp)
      · rintro ⟨f2, hf2, _, hle⟩
        cases hf2
        exact absurd hle (not_le.2 hex)
    · have hval : get_from_cache .unavailable (some f) now ttl = (some w, some f) := by
        simp [get_from_cache, get_inner, hex, hw]
      refine ⟨?_, fun f2 hf2 hgt => by cases hf2; exact absurd hgt hex⟩
      constructor
      · intro h
        rw [hval] at h
        simp only [Option.some.injEq] at h
        subst h
        exact ⟨f, rfl, hw, not_lt.1 hex⟩
      · rintro ⟨f2, hf2, hcv, _⟩
        cases hf2
        rw [hval]
        rw [hw] at hcv
        cases hcv
        rfl

theorem cache_get_ttl_semantics_witness :
    get_from_cache .unavailable (some exFreshFile) 90000 DEFAULT_CACHE_TTL =
      (none, none) :=
  (cache_get_ttl_semantics (some exFreshFile) "result" 90000 DEFAULT_CACHE_TTL
    exFreshFile_wf).2 exFreshFile rfl exFreshFile_stale

/-- An on-disk entry whose read raises an OSError. -/
def exBadFile : FsFile := { mtime := 0, content := .ioError }

/-- C10: the cache read is total at its interface.  A Redis-tier failure
or miss falls through to the filesystem tier and yields exactly the
filesystem-tier result; a missing file yields none; an unreadable file or
invalid JSON content is caught by the except branch and yields none
instead of propagating the exception. -/
theorem cache_get_total_on_errors :
    (∀ (fs : Option FsFile) (now ttl : ℚ),
       get_from_cache .failed fs now ttl = get_from_cache .unavailable fs now ttl ∧
       get_from_cache .miss fs now ttl = get_from_cache .unavailable fs now ttl) ∧
    (∀ (now ttl : ℚ), (get_from_cache .unavailable none now ttl).1 = none) ∧
    (∀ (f : FsFile) (now ttl : ℚ),
       f.content = ReadOutcome.ioError ∨ f.content = ReadOutcome.badJson →
       (get_from_cache .unavailable (some f) now ttl).1 = none) := by
  refine ⟨fun fs now ttl => ⟨rfl, rfl⟩, fun now ttl => rfl, ?_⟩
  intro f now ttl hbad
  by_cases hex : now - f.mtime > ttl
  · simp [get_from_cache, get_inner, hex]
  · rcases hbad with hb | hb <;> simp [get_from_cache, get_inner, hex, hb]

theorem cache_get_total_on_errors_witness :
    get_from_cache .failed (some exBadFile) 10 DEFAULT_CACHE_TTL =
      get_from_cache .unavailable (some exBadFile) 10 DEFAULT_CACHE_TTL ∧
    (get_from_cache .unavailable (some exBadFile) 10 DEFAULT_CACHE_TTL).1 = none :=
  ⟨(cache_get_total_on_errors.1 (some exBadFile) 10 DEFAULT_CACHE_TTL).1,
   cache_get_total_on_errors.2.2 exBadFile 10 DEFAULT_CACHE_TTL (Or.inl rfl)⟩

lemma mem_insertMtime {e g : CacheFile} :
    ∀ {l : List CacheFile}, g ∈ insertMtime e l ↔ g = e ∨ g ∈ l := by
  intro l
  induction l with
  | nil => simp [insertMtime]
  | cons f fs ih =>
    simp only [insertMtime]
    split
    · simp [List.mem_cons]
    · rw [List.mem_cons, ih, List.mem_cons]
      tauto

lemma mem_sortByMtime {g : CacheFile} :
    ∀ {l : List CacheFile}, g ∈ sortByMtime l ↔ g ∈ l := by
  intro l
  induction l with
  | nil => simp [sortByMtime]
  | cons f fs ih => simp [sortByMtime, mem_insertMtime, ih]

lemma pairwise_insertMtime {e : CacheFile} : ∀ {l : List CacheFile},
    l.Pairwise (fun a b => a.mtime ≤ b.mtime) →
    (insertMtime e l).Pairwise (fun a b => a.mtime ≤ b.mtime) := by
  intro l
  induction l with
  | nil => intro _; simp [insertMtime]
  | cons f fs ih =>
    intro hp
    rw [List.pairwise_cons] at hp
    obtain ⟨hf, hfs⟩ := hp
    simp only [insertMtime]
    split
    case isTrue hle =>
      refine List.Pairwise.cons ?_ (List.Pairwise.cons hf hfs)
      intro b hb
      rcases List.mem_cons.1 hb with hb | hb
      · exact hb ▸ hle
      · exact le_trans hle (hf b hb)
    case isFalse hgt =>
      refine List.Pairwise.cons ?_ (ih hfs)
      intro b hb
      rcases mem_insertMtime.1 hb with hb | hb
      · exact hb ▸ le_of_not_le hgt
      · exact hf b hb

lemma pairwise_sortByMtime : ∀ l : List CacheFile,
    (sortByMtime l).Pairwise (fun a b => a.mtime ≤ b.mtime) := by
  intro l
  induction l with
  | nil => simp [sortByMtime]
  | cons f fs ih =>
    simp only [sortByMtime]
    exact pairwise_insertMtime ih

lemma evictOldest_suffix (cap : ℕ) : ∀ l : List CacheFile,
    ∃ p, p ++ evictOldest cap l = l := by
  intro l
  induction l with
  | nil => exact ⟨[], rfl⟩
  | cons f fs ih =>
    simp only [evictOldest]
    split
    · obtain ⟨p, hp⟩ := ih
      exact ⟨f :: p, by rw [List.cons_append, hp]⟩
    · exact ⟨[], rfl⟩

lemma evictOldest_le (cap : ℕ) : ∀ l : List CacheFile,
    totalSize (evictOldest cap l) ≤ cap := by
  intro l
  induction l with
  | nil => simp [evictOldest, totalSize]
  | cons f fs ih =>
    simp only [evictOldest]
    split
    case isTrue h => exact ih
    case isFalse h => exact le_of_not_lt h

/-- C9: after the TTL pass, clean_cache only keeps unexpired entries, the
kept entries total at most the cap, and capacity eviction is strictly
oldest-write-first: any unexpired entry that was evicted is no newer than
every entry that was kept. -/
theorem clean_cache_evicts_oldest_first
    (files : List CacheFile) (now ttl : ℚ) (cap : ℕ) :
    (∀ f ∈ clean_cache files now ttl cap, now - f.mtime ≤ ttl) ∧
    totalSize (clean_cache files now ttl cap) ≤ cap ∧
    (∀ g ∈ files, now - g.mtime ≤ ttl → g ∉ clean_cache files now ttl cap →
       ∀ f ∈ clean_cache files now ttl cap, g.mtime ≤ f.mtime) := by
  obtain ⟨p, hp⟩ := evictOldest_suffix cap
    (sortByMtime (files.filter (fun f => decide (now - f.mtime ≤ ttl))))
  refine ⟨?_, evictOldest_le cap _, ?_⟩
  · intro f hf
    have hf2 : f ∈ sortByMtime (files.filter (fun f => decide (now - f.mtime ≤ ttl))) := by
      rw [← hp]
      exact List.mem_append_right p hf
    have hf3 := List.mem_filter.1 (mem_sortByMtime.1 hf2)
    exact of_decide_eq_true hf3.2
  · intro g hg hgl hgout f hf
    have hgs : g ∈ sortByMtime (files.filter (fun f => decide (now - f.mtime ≤ ttl))) :=
      mem_sortByMtime.2 (List.mem_filter.2 ⟨hg, decide_eq_true hgl⟩)
    rw [← hp] at hgs
    have hgp : g ∈ p := by
      rcases List.mem_append.1 hgs with h | h
      · exact h
      · exact absurd h hgout
    have hpair : (p ++ clean_cache files now ttl cap).Pairwise
        (fun a b => a.mtime ≤ b.mtime) := by
      rw [clean_cache, hp]
      exact pairwise_sortByMtime _
    exact (List.pairwise_append.1 hpair).2.2 g hgp f hf

/-- Three entries of 600 bytes written at times 0, 10, 20. -/
def exFiles : List CacheFile := [⟨0, 0, 600⟩, ⟨1, 10, 600⟩, ⟨2, 20, 600⟩]

def exOld : CacheFile := ⟨0, 0, 600⟩

def exNew : CacheFile := ⟨2, 20, 600⟩

lemma exClean_eval : clean_cache exFiles 20 100 1000 = [exNew] := by
  norm_num [clean_cache, exFiles, exNew, sortByMtime, insertMtime, evictOldest,
            totalSize]

lemma exOld_mem : exOld ∈ exFiles := by simp [exOld, exFiles]

lemma exOld_fresh : (20 : ℚ) - exOld.mtime ≤ 100 := by norm_num [exOld]

lemma exOld_out : exOld ∉ clean_cache exFiles 20 100 1000 := by
  rw [exClean_eval]
  simp [exOld, exNew]

lemma exNew_mem : exNew ∈ clean_cache exFiles 20 100 1000 := by
  rw [exClean_eval]
  exact List.mem_singleton.2 rfl

theorem clean_cache_evicts_oldest_first_witness :
    exOld.mtime ≤ exNew.mtime ∧
    totalSize (clean_cache exFiles 20 100 1000) ≤ 1000 :=
  ⟨(clean_cache_evicts_oldest_first exFiles 20 100 1000).2.2 exOld exOld_mem
     exOld_fresh exOld_out exNew exNew_mem,
   (clean_cache_evicts_oldest_first exFiles 20 100 1000).2.1⟩

end MCPAudio
